import Mathlib

/-!
Verification of the CNNumpy layer primitives (src/layers.py).

Tensors are shallowly embedded as dimension-tagged total functions over ℚ
(ℝ for the layers that need `tanh`/`sqrt`).  Each numpy loop nest is
translated as an explicit fold (`natFold`) over the loop ranges, with one
fold step per loop iteration; a single vectorised numpy statement (a slice
assignment or slice `+=`) becomes one pointwise update of the affected
region.  Operations that can raise in numpy (out-of-range slicing that
leads to a broadcast error, indexing past an axis, division by a zero
stride) are embedded as `Option`-valued functions returning `none` on the
offending inputs; the guards state exactly that every array read and write
of the loop nest is within the declared bounds.
-/

namespace CNNumpy

/-- A dense rank-4 numpy array `(m, channels, height, width)`: its shape and
a total function giving the entry at each index (entries outside the shape
are irrelevant to every statement below). -/
structure Tensor4 where
  mDim : ℕ
  cDim : ℕ
  hDim : ℕ
  wDim : ℕ
  data : ℕ → ℕ → ℕ → ℕ → ℚ

/-- The shape tuple of a rank-4 tensor. -/
def Tensor4.shape (t : Tensor4) : ℕ × ℕ × ℕ × ℕ :=
  (t.mDim, t.cDim, t.hDim, t.wDim)

/-- Rank-4 array contents alone (used for the weight tensor and the
gradient accumulators, whose shapes are fixed by the layer). -/
abbrev D4 : Type := ℕ → ℕ → ℕ → ℕ → ℚ

/-- The all-zero rank-4 contents, `np.zeros`. -/
def zeroD4 : D4 := fun _ _ _ _ => 0

/-- A counted `for`-loop: `natFold f n a` runs the body `f` on states,
at loop indices `0, 1, ..., n-1` in order (index `n-1` applied last),
starting from state `a`. -/
def natFold {α : Type} (f : ℕ → α → α) : ℕ → α → α
  | 0, a => a
  | n + 1, a => f n (natFold f n a)

/-!
Conv (src/layers.py lines 3-97).  The layer is constructed with
`(nb_filters = nF, filter_size = f, nb_channels = nC, stride = s,
padding = p)`; its weight is a `(nF, nC, f, f)` array `Wv` and its bias a
`(nF, 1)` array, embedded as `bv : ℕ → ℚ` (the code only ever reads
column 0 of the bias).
-/

/-- Output spatial extent of `Conv.forward`,
`n_out = int((n_in + 2*p - f) / s) + 1` (lines 37-38).  Over ℕ this equals
the Python value whenever `f ≤ n_in + 2*p` (the numerator is then
non-negative, where `int` truncation and floor division agree). -/
def convOutDim (n p f s : ℕ) : ℕ :=
  (n + 2 * p - f) / s + 1

/-- One output cell of the forward convolution (lines 55-56 without the
bias): `np.sum` of the element-wise product of the receptive-field window
`X[i, :, h*s : h*s+f, w*s : w*s+f]` (over all of `X`'s channels) with the
weight block `W[c, ...]`. -/
def convCell (nC f s : ℕ) (Wv : D4) (X : Tensor4) (i c h w : ℕ) : ℚ :=
  ∑ cc ∈ Finset.range nC, ∑ u ∈ Finset.range f, ∑ v ∈ Finset.range f,
    X.data i cc (h * s + u) (w * s + v) * Wv c cc u v

/-- Conv.forward (lines 24-57).  Every output cell is written exactly once
by the loop nest, so the output is the pointwise array of window sums plus
the filter bias.  The guard states that the stride is non-zero (line 37
divides by `s`), that `X` has the layer's declared channel count (the
window/weight product broadcasts only then), and that every receptive
window read by line 55 lies inside `X`: the source raises (a
`ZeroDivisionError`, respectively a broadcast `ValueError`) on the guarded
inputs, because the window-extraction logic never pads `X` even when
`p > 0`.  (A window that sticks out by less than `f - 1` rows yields a
clamped numpy slice that may still broadcast; such inputs are also mapped
to `none` here and no theorem below concerns them.) -/
def convForward (nF nC f s p : ℕ) (Wv : D4) (bv : ℕ → ℚ) (X : Tensor4) :
    Option Tensor4 :=
  if 0 < s ∧ X.cDim = nC
      ∧ (∀ h < convOutDim X.hDim p f s, h * s + f ≤ X.hDim)
      ∧ (∀ w < convOutDim X.wDim p f s, w * s + f ≤ X.wDim) then
    some ⟨X.mDim, nF, convOutDim X.hDim p f s, convOutDim X.wDim p f s,
      fun i c h w => convCell nC f s Wv X i c h w + bv c⟩
  else
    none

/-- One application of `np.rot90` with its default axes `(0, 1)`: the
entry at `(a, b, u, v)` of the rotated array, for an input whose second
axis has extent `n1`, is the input entry at `(b, n1 - 1 - a, u, v)`.  Note
the default axes are the FIRST two (filter and channel) axes of the weight
tensor, not the spatial ones. -/
def rot90ax01 (n1 : ℕ) (A : D4) : D4 :=
  fun a b u v => A b (n1 - 1 - a) u v

/-- The kernel `W_rot = np.rot90(np.rot90(self.W['val']))` of line 75: `np.rot90`
applied twice over the default axes `(0, 1)` of the `(nF, nC, f, f)`
weight tensor, which reverses the filter and channel axes and leaves the
spatial axes untouched. -/
def convWrot (nF nC : ℕ) (Wv : D4) : D4 :=
  rot90ax01 nF (rot90ax01 nC Wv)

/-- Following the claim's (and spec's) words, not the source: a 180-degree
SPATIAL rotation of each filter, two 90-degree rotations over the two
spatial axes, applied per filter and independent of channel.  Stated only
to compare with what line 75 of the source actually computes. -/
def rot180spatial (f : ℕ) (Wv : D4) : D4 :=
  fun a b u v => Wv a b (f - 1 - u) (f - 1 - v)

/-- The contribution that the iteration `(i, c, h, w)` of Conv.backward's
loop nest adds to the weight-gradient cell `(a, b, u, v)` (line 91):
`self.W['grad'][c, ...] += dout[i, c, h, w] * X[i, :, h_start:h_end,
w_start:w_end]` touches the block of all cells with first index `c`, adding
the product of the `dout` scalar and the input window entry. -/
def convBkW (nC f s : ℕ) (X dout : Tensor4) (i c h w : ℕ) : D4 :=
  fun a b u v =>
    if a = c ∧ b < nC ∧ u < f ∧ v < f then
      dout.data i c h w * X.data i b (h * s + u) (w * s + v)
    else 0

/-- The contribution that the iteration `(i, c, h, w)` of Conv.backward's
loop nest adds to the input-gradient cell `(a, b, u, v)` (line 92):
`dX[i, :, h_start:h_end, w_start:w_end] += dout[i, c, h, w] *
W_rot[c, ...]` touches the window of batch entry `i` across all channels,
adding the product of the `dout` scalar and the rotated-weight entry. -/
def convBkX (nC f s : ℕ) (Wr : D4) (dout : Tensor4) (i c h w : ℕ) : D4 :=
  fun a b u v =>
    if a = i ∧ b < nC ∧ h * s ≤ u ∧ u < h * s + f ∧ w * s ≤ v ∧ v < w * s + f then
      dout.data i c h w * Wr c b (u - h * s) (v - w * s)
    else 0

/-- The loop nest of Conv.backward (lines 79-92) on the state
`(W grad accumulator, dX accumulator)`.  Each innermost iteration performs
the two slice `+=` statements of lines 91-92 as pointwise region updates;
the loop ranges are taken from `dout.shape` (lines 73, 79-87). -/
def convBkLoops (nC f s : ℕ) (Wr : D4) (X dout : Tensor4) (st0 : D4 × D4) :
    D4 × D4 :=
  natFold (fun i st1 =>
    natFold (fun c st2 =>
      natFold (fun h st3 =>
        natFold (fun w st4 =>
          (fun a b u v => st4.1 a b u v + convBkW nC f s X dout i c h w a b u v,
           fun a b u v => st4.2 a b u v + convBkX nC f s Wr dout i c h w a b u v))
          dout.wDim st3)
        dout.hDim st2)
      dout.cDim st1)
    dout.mDim st0

/-- Conv.backward (lines 59-97) for a layer with weights `Wv`, weight
gradient accumulator `wg0` and bias gradient `bg0` at entry, cached
forward input `X` and upstream gradient `dout`.  It returns
`(dX, W.grad, b.grad)`: `dX` starts from `np.zeros(X.shape)` (line 76) and
`W.grad` from `wg0` — the layer never zeroes `wg0` itself — both updated
by the loop nest of lines 79-92; `b.grad[c]` is then OVERWRITTEN with
`np.sum(dout[:, c, ...])` for each `c < nF` (lines 94-95).  The guard
states that every read and write of the nest is in bounds: `dout` must
have exactly `nF` channels (the channel loop indexes `W.grad` and `W_rot`
by `dout`'s channel, lines 91-92, while the bias loop indexes `dout` by
filter, lines 94-95: fewer or more channels raise an `IndexError`),
its batch extent may not exceed `X`'s, and every window of lines 91-92
must lie inside `X`; the source raises an `IndexError` or a broadcast
`ValueError` on the guarded inputs. -/
def convBackward (nF nC f s : ℕ) (Wv : D4) (X dout : Tensor4)
    (wg0 : D4) (bg0 : ℕ → ℚ) : Option (Tensor4 × D4 × (ℕ → ℚ)) :=
  if dout.cDim = nF ∧ dout.mDim ≤ X.mDim ∧ X.cDim = nC
      ∧ (∀ h < dout.hDim, h * s + f ≤ X.hDim)
      ∧ (∀ w < dout.wDim, w * s + f ≤ X.wDim) then
    some (⟨X.mDim, X.cDim, X.hDim, X.wDim,
            (convBkLoops nC f s (convWrot nF nC Wv) X dout (wg0, zeroD4)).2⟩,
          (convBkLoops nC f s (convWrot nF nC Wv) X dout (wg0, zeroD4)).1,
          fun c => if c < nF then
              ∑ i ∈ Finset.range dout.mDim, ∑ h ∈ Finset.range dout.hDim,
                ∑ w ∈ Finset.range dout.wDim, dout.data i c h w
            else bg0 c)
  else
    none

/-!
AvgPool (src/layers.py lines 99-170), constructed with
`(filter_size = f, stride = s)`; no trainable parameters.
-/

/-- Output spatial extent of `AvgPool.forward`,
`n_out = int((n_in - f) / s) + 1` (lines 119-120, no padding term); over ℕ
this equals the Python value whenever `f ≤ n_in`. -/
def poolOutDim (n f s : ℕ) : ℕ :=
  (n - f) / s + 1

/-- AvgPool.forward (lines 106-138).  The loop nest has NO channel loop:
line 134 assigns `A_pool[i, :, h, w] = np.mean(X[i, :, h_start:h_end,
w_start:w_end])`, a single scalar — the mean over the whole
`(channels, f, f)` slice — written to every channel of the output cell, so
the output entry does not depend on its channel index.  The guard states
`0 < s` (lines 119-120 divide by `s`), `0 < f` and `0 < X.cDim` (otherwise
`np.mean` of an empty slice is NaN, which ℚ cannot represent), and
`f ≤ X.hDim`, `f ≤ X.wDim` (otherwise the output extent is non-positive
and `np.zeros` raises, or windows clamp and the divisor changes); under
the guard every window of line 134 lies inside `X`. -/
def avgpoolForward (f s : ℕ) (X : Tensor4) : Option Tensor4 :=
  if 0 < s ∧ 0 < f ∧ 0 < X.cDim ∧ f ≤ X.hDim ∧ f ≤ X.wDim then
    some ⟨X.mDim, X.cDim, poolOutDim X.hDim f s, poolOutDim X.wDim f s,
      fun i _ h w =>
        (∑ cc ∈ Finset.range X.cDim, ∑ u ∈ Finset.range f, ∑ v ∈ Finset.range f,
            X.data i cc (h * s + u) (w * s + v)) / ((X.cDim * f * f : ℕ) : ℚ)⟩
  else
    none

/-- The contribution that the iteration `(i, c, h, w)` of AvgPool.backward's
loop nest adds to the cell `(a, b, u, v)` of `dX` (lines 166-168):
`average = dout[i, c, h, w] / (n_H * n_W)` with `(n_H, n_W)` the SPATIAL
extents of `dout` (line 151), added to every cell of the window
`dX[i, c, h_start:h_end, w_start:w_end]`. -/
def poolBk (f s : ℕ) (dout : Tensor4) (i c h w : ℕ) : D4 :=
  fun a b u v =>
    if a = i ∧ b = c ∧ h * s ≤ u ∧ u < h * s + f ∧ w * s ≤ v ∧ v < w * s + f then
      dout.data i c h w / ((dout.hDim * dout.wDim : ℕ) : ℚ)
    else 0

/-- AvgPool.backward (lines 140-170).  `dX` is initialised as
`np.copy(X)` of the cached forward input (line 152, NOT zeros), then the
loop nest — ranging over `dout.shape` (line 151) — adds the uniform window
contributions.  The guard states that every write of line 168 lands inside
`X` and is a full `(f, f)` window; the source raises an `IndexError` or
broadcast `ValueError` on the guarded inputs. -/
def avgpoolBackward (f s : ℕ) (X dout : Tensor4) : Option Tensor4 :=
  if dout.mDim ≤ X.mDim ∧ dout.cDim ≤ X.cDim
      ∧ (∀ h < dout.hDim, h * s + f ≤ X.hDim)
      ∧ (∀ w < dout.wDim, w * s + f ≤ X.wDim) then
    some ⟨X.mDim, X.cDim, X.hDim, X.wDim,
      natFold (fun i a1 =>
        natFold (fun c a2 =>
          natFold (fun h a3 =>
            natFold (fun w a4 =>
              fun a b u v => a4 a b u v + poolBk f s dout i c h w a b u v)
              dout.wDim a3)
            dout.hDim a2)
          dout.cDim a1)
        dout.mDim X.data⟩
  else
    none

/-!
Fc (src/layers.py lines 172-220), constructed with `(row, column)`.
Matrices are embedded with a `List ℕ` shape so that the rank-1 result of
`np.sum(..., axis=0)` and the Python scalar `0` that `__init__` stores in
the `grad` slot can be represented faithfully.
-/

/-- A dense numpy array of any rank: its shape and a total function from
index lists to entries (only indices within the shape matter). -/
structure NDT where
  shape : List ℕ
  data : List ℕ → ℚ

/-- A value held in a parameter's `grad` slot: `Fc.__init__` stores the
Python scalar `0` there, `Fc.backward` overwrites it with an array. -/
inductive PyVal where
  | num (q : ℚ)
  | arr (t : NDT)

/-- A named numpy parameter `{val, grad}` of the Fc layer. -/
structure FcParam where
  val : NDT
  grad : PyVal

/-- Matrix product `np.dot` of two 2-D arrays: `[r, k] x [k, c] -> [r, c]`, contracting
over the first factor's second axis (the source only calls it on
conforming shapes). -/
def matMul2 (A B : NDT) : NDT :=
  ⟨[A.shape.getD 0 0, B.shape.getD 1 0],
   fun idx => ∑ k ∈ Finset.range (A.shape.getD 1 0),
     A.data [idx.getD 0 0, k] * B.data [k, idx.getD 1 0]⟩

/-- Transpose `.T` of a 2-D array. -/
def transp2 (A : NDT) : NDT :=
  ⟨[A.shape.getD 1 0, A.shape.getD 0 0],
   fun idx => A.data [idx.getD 1 0, idx.getD 0 0]⟩

/-- Multiplication of an array by a scalar. -/
def scaleNDT (q : ℚ) (A : NDT) : NDT :=
  ⟨A.shape, fun idx => q * A.data idx⟩

/-- Reduction `np.sum(A, axis = 0)`: drops the first axis and sums over it, so a
`[r, c]` input yields a rank-1 `[c]` output. -/
def sumAxis0 (A : NDT) : NDT :=
  ⟨A.shape.drop 1,
   fun idx => ∑ i ∈ Finset.range (A.shape.getD 0 0), A.data (i :: idx)⟩

/-- Sum `M + b` for `M : [r, c]` and a column `b : [r, 1]`, numpy-broadcast
over the columns of `M` (the only addition `Fc.forward` performs). -/
def addCol (M B : NDT) : NDT :=
  ⟨M.shape, fun idx => M.data idx + B.data [idx.getD 0 0, 0]⟩

/-- The Fc layer state: `(row, column)` from the constructor, the two
parameters and the forward cache. -/
structure Fc where
  row : ℕ
  col : ℕ
  wPar : FcParam
  bPar : FcParam
  cache : Option NDT

/-- Fc.__init__ (lines 174-182): weight value of shape `[row, column]`,
bias value of shape `[row, 1]` (entries `wData` / `bData`, standing for the
`np.random.randn` draws), and BOTH `grad` slots holding the Python scalar
`0` — not arrays of the value's shape. -/
def fcInit (row col : ℕ) (wData bData : List ℕ → ℚ) : Fc :=
  ⟨row, col,
   ⟨⟨[row, col], wData⟩, PyVal.num 0⟩,
   ⟨⟨[row, 1], bData⟩, PyVal.num 0⟩,
   none⟩

/-- Fc.forward (lines 184-196): caches the input and returns
`np.dot(W.val, fc) + b.val`. -/
def fcForward (l : Fc) (fc : NDT) : Fc × NDT :=
  ({l with cache := some fc}, addCol (matMul2 l.wPar.val fc) l.bPar.val)

/-- Fc.backward (lines 198-220): requires a cached input (`None.shape`
raises), takes `m = fc.shape[0]` — the FIRST axis of the cached input —
overwrites `W.grad` with `(1/m) * np.dot(deltaL, fc.T)` and `b.grad` with
`(1/m) * np.sum(deltaL, axis=0)`, and returns
`(np.dot(W.val.T, deltaL), W.grad, b.grad)` together with the mutated
layer; the returned error is NOT multiplied by any activation derivative
(lines 216-218). -/
def fcBackward (l : Fc) (deltaL : NDT) : Option (Fc × NDT × NDT × NDT) :=
  match l.cache with
  | none => none
  | some fc =>
      let m : ℚ := ((fc.shape.getD 0 0 : ℕ) : ℚ)
      let wG : NDT := scaleNDT (1 / m) (matMul2 deltaL (transp2 fc))
      let bG : NDT := scaleNDT (1 / m) (sumAxis0 deltaL)
      some ({l with wPar := ⟨l.wPar.val, PyVal.arr wG⟩,
                    bPar := ⟨l.bPar.val, PyVal.arr bG⟩},
            matMul2 (transp2 l.wPar.val) deltaL, wG, bG)

/-- Conv.__init__ (lines 8-22) parameter shapes: weight value and gradient
both `(nF, nC, f, f)`, bias value and gradient both `(nF, 1)` — recorded
as shape tuples for the parameter-shape invariant. -/
def convInitShapes (nF nC f : ℕ) :
    ((ℕ × ℕ × ℕ × ℕ) × (ℕ × ℕ × ℕ × ℕ)) × ((ℕ × ℕ) × (ℕ × ℕ)) :=
  (((nF, nC, f, f), (nF, nC, f, f)), ((nF, 1), (nF, 1)))

/-!
AdamGD (src/layers.py lines 223-287) and TanH (lines 289-314).  The two
transcendental primitives `np.sqrt` and `np.tanh` are not rational
functions, so they enter the embedding as explicit function parameters
(`sqrtF`, `tanhF`) that every statement below carries along unevaluated:
all the claims about these layers concern where the primitives and the
`alpha` scale appear in the formulas, never their numeric values.
Parameter tensors are embedded as functions from an arbitrary index type
`ι`: every operation of `update_params` and of TanH is elementwise.
-/

/-- The five weight names and five bias names the optimizer tracks: the
keys `W1..W5, b1..b5` of the parameter dictionary (the gradient dictionary
uses the same ten names prefixed with `d`). -/
inductive PName where
  | W1 | W2 | W3 | W4 | W5 | b1 | b2 | b3 | b4 | b5
  deriving DecidableEq

/-- The AdamGD optimizer state (lines 225-244): hyperparameters, the shared
parameter collection, and per-name first-moment (`vdW1..vdb5`) and
second-moment (`sdW1..sdb5`) tensors, all initialised to zero by
`__init__`. -/
structure AdamGD (ι : Type) where
  lr : ℚ
  beta1 : ℚ
  beta2 : ℚ
  epsilon : ℚ
  params : PName → ι → ℚ
  vMom : PName → ι → ℚ
  sMom : PName → ι → ℚ

/-- AdamGD.__init__ (lines 225-244): stores the hyperparameters and the
parameter collection and zeroes all moment tensors. -/
def adamInit {ι : Type} (lr beta1 beta2 epsilon : ℚ) (params : PName → ι → ℚ) :
    AdamGD ι :=
  ⟨lr, beta1, beta2, epsilon, params, fun _ _ => 0, fun _ _ => 0⟩

/-- AdamGD.update_params (lines 247-287), identically for each of the ten
tracked names: first moment `v <- beta1*v + (1-beta1)*grad`, second moment
`s <- beta2*s + (1-beta2)*grad**2` (no bias correction of either moment),
then `param <- param - lr * v / (np.sqrt(s) + epsilon)`, elementwise
(`sqrtF` stands for the elementwise `np.sqrt`); the method returns
`self.params`, i.e. the collection held by the optimizer after the update
(the source mutates the dictionary it was constructed with in place). -/
def adamUpdate {ι : Type} (sqrtF : ℚ → ℚ) (o : AdamGD ι)
    (grads : PName → ι → ℚ) : AdamGD ι × (PName → ι → ℚ) :=
  let v : PName → ι → ℚ := fun n k => o.beta1 * o.vMom n k + (1 - o.beta1) * grads n k
  let sq : PName → ι → ℚ := fun n k => o.beta2 * o.sMom n k + (1 - o.beta2) * grads n k ^ 2
  let p : PName → ι → ℚ := fun n k =>
    o.params n k - o.lr * v n k / (sqrtF (sq n k) + o.epsilon)
  ({o with params := p, vMom := v, sMom := sq}, p)

/-- The TanH layer (lines 289-314): the scale `alpha` (default `1.7159`,
line 291) and the forward cache. -/
structure TanH (ι : Type) where
  alpha : ℚ := 1.7159
  cache : Option (ι → ℚ) := none

/-- TanH.forward (lines 295-303): caches `X` and returns
`alpha * np.tanh(X)` elementwise (`tanhF` stands for the elementwise
`np.tanh`). -/
def tanhForward {ι : Type} (tanhF : ℚ → ℚ) (t : TanH ι) (X : ι → ℚ) :
    TanH ι × (ι → ℚ) :=
  ({t with cache := some X}, fun k => t.alpha * tanhF (X k))

/-- TanH.backward (lines 305-314): requires a cached input and returns
`new_deltaL * (1 - np.tanh(X)**2)` elementwise — the derivative of the
PLAIN tanh, with no `alpha` factor anywhere. -/
def tanhBackward {ι : Type} (tanhF : ℚ → ℚ) (t : TanH ι)
    (newDeltaL : ι → ℚ) : Option (ι → ℚ) :=
  t.cache.map fun X => fun k => newDeltaL k * (1 - tanhF (X k) ^ 2)

/-!
Helper lemmas about the loop combinator: a counted loop whose body adds a
per-iteration contribution into every cell of an accumulator leaves each
cell at its initial value plus the sum of the contributions, and a loop
whose body acts componentwise on a pair acts as two independent loops.
-/

theorem natFold_zero {α : Type} (f : ℕ → α → α) (a : α) : natFold f 0 a = a := rfl

theorem natFold_one {α : Type} (f : ℕ → α → α) (a : α) : natFold f 1 a = f 0 a := rfl

theorem natFold_congr {α : Type} {f g : ℕ → α → α} (h : ∀ m a, f m a = g m a) :
    ∀ (n : ℕ) (a : α), natFold f n a = natFold g n a := by
  intro n
  induction n with
  | zero => intro a; rfl
  | succ n ih => intro a; simp only [natFold, ih, h]

theorem natFold_add (c : ℕ → D4) :
    ∀ (n : ℕ) (g : D4),
      natFold (fun m a => fun x y z t => a x y z t + c m x y z t) n g
        = fun x y z t => g x y z t + ∑ m ∈ Finset.range n, c m x y z t := by
  intro n
  induction n with
  | zero => intro g; funext x y z t; simp [natFold]
  | succ n ih =>
      intro g
      funext x y z t
      simp only [natFold, ih, Finset.sum_range_succ]
      ring

theorem natFold_add2 (c : ℕ → ℕ → D4) (n2 : ℕ) :
    ∀ (n : ℕ) (g : D4),
      natFold (fun m a =>
          natFold (fun m2 a2 => fun x y z t => a2 x y z t + c m m2 x y z t) n2 a) n g
        = fun x y z t => g x y z t
            + ∑ m ∈ Finset.range n, ∑ m2 ∈ Finset.range n2, c m m2 x y z t := by
  intro n g
  rw [natFold_congr (fun m a => natFold_add (c m) n2 a)]
  exact natFold_add (fun m => fun x y z t => ∑ m2 ∈ Finset.range n2, c m m2 x y z t) n g

theorem natFold_add3 (c : ℕ → ℕ → ℕ → D4) (n2 n3 : ℕ) :
    ∀ (n : ℕ) (g : D4),
      natFold (fun m a =>
          natFold (fun m2 a2 =>
            natFold (fun m3 a3 => fun x y z t => a3 x y z t + c m m2 m3 x y z t) n3 a2)
            n2 a) n g
        = fun x y z t => g x y z t
            + ∑ m ∈ Finset.range n, ∑ m2 ∈ Finset.range n2, ∑ m3 ∈ Finset.range n3,
                c m m2 m3 x y z t := by
  intro n g
  rw [natFold_congr (fun m a => natFold_add2 (c m) n3 n2 a)]
  exact natFold_add
    (fun m => fun x y z t =>
      ∑ m2 ∈ Finset.range n2, ∑ m3 ∈ Finset.range n3, c m m2 m3 x y z t) n g

/-- Four-level nest of `natFold_add`: the shape of the accumulation loop
nests in `Conv.backward` and `AvgPool.backward`. -/
theorem natFold_add4 (c : ℕ → ℕ → ℕ → ℕ → D4) (n2 n3 n4 : ℕ) :
    ∀ (n : ℕ) (g : D4),
      natFold (fun m a =>
          natFold (fun m2 a2 =>
            natFold (fun m3 a3 =>
              natFold (fun m4 a4 => fun x y z t => a4 x y z t + c m m2 m3 m4 x y z t)
                n4 a3) n3 a2) n2 a) n g
        = fun x y z t => g x y z t
            + ∑ m ∈ Finset.range n, ∑ m2 ∈ Finset.range n2, ∑ m3 ∈ Finset.range n3,
                ∑ m4 ∈ Finset.range n4, c m m2 m3 m4 x y z t := by
  intro n g
  rw [natFold_congr (fun m a => natFold_add3 (c m) n3 n4 n2 a)]
  exact natFold_add
    (fun m => fun x y z t =>
      ∑ m2 ∈ Finset.range n2, ∑ m3 ∈ Finset.range n3, ∑ m4 ∈ Finset.range n4,
        c m m2 m3 m4 x y z t) n g

theorem natFold_pair {α β : Type} (f : ℕ → α → α) (g : ℕ → β → β) :
    ∀ (n : ℕ) (p : α × β),
      natFold (fun m st => (f m st.1, g m st.2)) n p
        = (natFold f n p.1, natFold g n p.2) := by
  intro n
  induction n with
  | zero => intro p; rfl
  | succ n ih => intro p; simp only [natFold, ih]

/-- A four-level loop nest whose innermost body acts componentwise on a
pair is the pair of the two component loop nests. -/
theorem natFold4_pair {α β : Type}
    (f : ℕ → ℕ → ℕ → ℕ → α → α) (g : ℕ → ℕ → ℕ → ℕ → β → β)
    (n2 n3 n4 : ℕ) (n : ℕ) (p : α × β) :
    natFold (fun i st1 =>
        natFold (fun c st2 =>
          natFold (fun h st3 =>
            natFold (fun w st4 => (f i c h w st4.1, g i c h w st4.2)) n4 st3)
            n3 st2) n2 st1) n p
      = (natFold (fun i a =>
            natFold (fun c a2 =>
              natFold (fun h a3 =>
                natFold (fun w a4 => f i c h w a4) n4 a3) n3 a2) n2 a) n p.1,
         natFold (fun i b =>
            natFold (fun c b2 =>
              natFold (fun h b3 =>
                natFold (fun w b4 => g i c h w b4) n4 b3) n3 b2) n2 b) n p.2) := by
  have e1 : ∀ (i c h : ℕ) (st : α × β),
      natFold (fun w st4 => (f i c h w st4.1, g i c h w st4.2)) n4 st
        = (natFold (fun w a4 => f i c h w a4) n4 st.1,
           natFold (fun w b4 => g i c h w b4) n4 st.2) :=
    fun i c h st => natFold_pair _ _ n4 st
  have e2 : ∀ (i c : ℕ) (st : α × β),
      natFold (fun h st3 =>
          natFold (fun w st4 => (f i c h w st4.1, g i c h w st4.2)) n4 st3) n3 st
        = (natFold (fun h a3 => natFold (fun w a4 => f i c h w a4) n4 a3) n3 st.1,
           natFold (fun h b3 => natFold (fun w b4 => g i c h w b4) n4 b3) n3 st.2) := by
    intro i c st
    rw [natFold_congr (fun h st3 => e1 i c h st3) n3 st]
    exact natFold_pair _ _ n3 st
  have e3 : ∀ (i : ℕ) (st : α × β),
      natFold (fun c st2 =>
          natFold (fun h st3 =>
            natFold (fun w st4 => (f i c h w st4.1, g i c h w st4.2)) n4 st3)
            n3 st2) n2 st
        = (natFold (fun c a2 =>
              natFold (fun h a3 =>
                natFold (fun w a4 => f i c h w a4) n4 a3) n3 a2) n2 st.1,
           natFold (fun c b2 =>
              natFold (fun h b3 =>
                natFold (fun w b4 => g i c h w b4) n4 b3) n3 b2) n2 st.2) := by
    intro i st
    rw [natFold_congr (fun c st2 => e2 i c st2) n2 st]
    exact natFold_pair _ _ n2 st
  rw [natFold_congr (fun i st1 => e3 i st1) n p]
  exact natFold_pair _ _ n p

/-- Closed form of Conv.backward's loop nest: starting from the
accumulators `(g1, g2)`, each weight-gradient cell ends at its initial
value plus the sum over all loop iterations of the line-91 contributions,
and each input-gradient cell likewise with the line-92 contributions. -/
theorem convBkLoops_eq (nC f s : ℕ) (Wr : D4) (X dout : Tensor4) (g1 g2 : D4) :
    convBkLoops nC f s Wr X dout (g1, g2)
      = (fun a b u v => g1 a b u v
            + ∑ i ∈ Finset.range dout.mDim, ∑ c ∈ Finset.range dout.cDim,
                ∑ h ∈ Finset.range dout.hDim, ∑ w ∈ Finset.range dout.wDim,
                  convBkW nC f s X dout i c h w a b u v,
         fun a b u v => g2 a b u v
            + ∑ i ∈ Finset.range dout.mDim, ∑ c ∈ Finset.range dout.cDim,
                ∑ h ∈ Finset.range dout.hDim, ∑ w ∈ Finset.range dout.wDim,
                  convBkX nC f s Wr dout i c h w a b u v) := by
  unfold convBkLoops
  rw [natFold4_pair
    (fun i c h w a4 => fun a b u v => a4 a b u v + convBkW nC f s X dout i c h w a b u v)
    (fun i c h w b4 => fun a b u v => b4 a b u v + convBkX nC f s Wr dout i c h w a b u v)
    dout.cDim dout.hDim dout.wDim dout.mDim (g1, g2)]
  rw [natFold_add4 (fun i c h w => convBkW nC f s X dout i c h w)
    dout.cDim dout.hDim dout.wDim dout.mDim g1]
  rw [natFold_add4 (fun i c h w => convBkX nC f s Wr dout i c h w)
    dout.cDim dout.hDim dout.wDim dout.mDim g2]

/-- An `if` whose condition does not involve the summation indices pulls
out of a double sum. -/
theorem sum_ite_pull (P : Prop) [Decidable P] (s t : Finset ℕ) (g : ℕ → ℕ → ℚ) :
    (∑ h ∈ s, ∑ w ∈ t, if P then g h w else 0)
      = if P then ∑ h ∈ s, ∑ w ∈ t, g h w else 0 := by
  by_cases hP : P <;> simp [hP]

/-- An `if` whose condition does not involve the summation indices pulls
out of a triple sum. -/
theorem sum_ite_pull3 (P : Prop) [Decidable P] (r s t : Finset ℕ)
    (g : ℕ → ℕ → ℕ → ℚ) :
    (∑ c ∈ r, ∑ h ∈ s, ∑ w ∈ t, if P then g c h w else 0)
      = if P then ∑ c ∈ r, ∑ h ∈ s, ∑ w ∈ t, g c h w else 0 := by
  by_cases hP : P <;> simp [hP]

/-!
The claims.
-/

/-- Claim C1, amended.  Whenever the stride is non-zero, the input has the
layer's declared channel count and every receptive-field window lies
inside the input — in particular whenever `p = 0`, `f ≤ H` and `f ≤ W` —
`Conv.forward` returns a tensor of shape
`[m, filter_count, (H + 2p - f)/s + 1, (W + 2p - f)/s + 1]`, and (as the
claim states for `p = 0`) each output entry is the sum over all input
channels of the element-wise product of the receptive-field window with
the filter's weight tensor, plus the filter's bias.  The claim's
unconditional shape statement is refuted by `conv_forward_padding_cex`:
with `p > 0` the window extraction does not pad, so the source raises
instead of returning. -/
theorem conv_forward_spec (nF nC f s p : ℕ) (Wv : D4) (bv : ℕ → ℚ)
    (X : Tensor4) (h1 : 0 < s) (h2 : X.cDim = nC)
    (h3 : ∀ h < convOutDim X.hDim p f s, h * s + f ≤ X.hDim)
    (h4 : ∀ w < convOutDim X.wDim p f s, w * s + f ≤ X.wDim) :
    ∃ out, convForward nF nC f s p Wv bv X = some out
      ∧ out.shape = (X.mDim, nF, (X.hDim + 2 * p - f) / s + 1,
                     (X.wDim + 2 * p - f) / s + 1)
      ∧ (p = 0 → ∀ i c h w,
          out.data i c h w
            = (∑ cc ∈ Finset.range nC, ∑ u ∈ Finset.range f, ∑ v ∈ Finset.range f,
                X.data i cc (h * s + u) (w * s + v) * Wv c cc u v) + bv c) := by
  unfold convForward
  rw [if_pos ⟨h1, h2, h3, h4⟩]
  exact ⟨_, rfl, rfl, fun _ i c h w => rfl⟩

/-- Witness for `conv_forward_spec` at a concrete `1×1×1×1` input. -/
theorem conv_forward_spec_witness :
    ∃ out, convForward 1 1 1 1 0 (fun _ _ _ _ => 1) (fun _ => 0)
        ⟨1, 1, 1, 1, fun _ _ _ _ => 1⟩ = some out
      ∧ out.shape = (1, 1, 1, 1)
      ∧ (0 = 0 → ∀ i c h w, out.data i c h w
          = (∑ cc ∈ Finset.range 1, ∑ u ∈ Finset.range 1, ∑ v ∈ Finset.range 1,
              (1 : ℚ) * 1) + 0) :=
  conv_forward_spec 1 1 1 1 0 (fun _ _ _ _ => 1) (fun _ => 0)
    ⟨1, 1, 1, 1, fun _ _ _ _ => 1⟩ (by decide) rfl (by decide) (by decide)

/-- Counterexample to claim C1 as stated.  For the `1×1×2×2` all-ones
input with `p = 1`, `f = 2`, `s = 1`, the claim asserts that forward
returns a tensor of shape `[1, 1, 3, 3]`; the source instead raises a
broadcast `ValueError` (the window at output row 2 is the empty slice
`X[0, :, 2:4, ...]`, whose shape `(1, 0, 2)` cannot broadcast against the
`(1, 2, 2)` weight block), embedded here as `none`: no tensor is
returned at all. -/
theorem conv_forward_padding_cex :
    convForward 1 1 2 1 1 (fun _ _ _ _ => 1) (fun _ => 0)
      ⟨1, 1, 2, 2, fun _ _ _ _ => 1⟩ = none := by
  unfold convForward
  split
  · next hg => exact absurd hg (by decide)
  · rfl

/-- Claim C5.  Under the in-bounds conditions (in particular for a `dout`
of the shape of the last forward output), Conv.backward leaves the weight
gradient of each filter `c` at its entry value PLUS — accumulated, never
overwritten, and never zeroed by the layer itself — the sum over all batch
indices and output positions of `dout[i, c, h, w]` times the input window
`X[i, :, h*s : h*s+f, w*s : w*s+f]`; with an all-zero accumulator at entry
this is exactly the claimed sum.  The bias gradient of each filter `c` is
set (overwritten) to the sum of `dout` over the batch and spatial
dimensions at channel `c`. -/
theorem conv_backward_grad_spec (nF nC f s : ℕ) (Wv wg0 : D4) (bg0 : ℕ → ℚ)
    (X dout : Tensor4)
    (h1 : dout.cDim = nF) (h2 : dout.mDim ≤ X.mDim) (h3 : X.cDim = nC)
    (h4 : ∀ h < dout.hDim, h * s + f ≤ X.hDim)
    (h5 : ∀ w < dout.wDim, w * s + f ≤ X.wDim) :
    ∃ r, convBackward nF nC f s Wv X dout wg0 bg0 = some r
      ∧ (∀ c cc u v, c < nF → cc < nC → u < f → v < f →
           r.2.1 c cc u v
             = wg0 c cc u v
               + ∑ i ∈ Finset.range dout.mDim, ∑ h ∈ Finset.range dout.hDim,
                   ∑ w ∈ Finset.range dout.wDim,
                     dout.data i c h w * X.data i cc (h * s + u) (w * s + v))
      ∧ (∀ c < nF, r.2.2 c
           = ∑ i ∈ Finset.range dout.mDim, ∑ h ∈ Finset.range dout.hDim,
               ∑ w ∈ Finset.range dout.wDim, dout.data i c h w) := by
  unfold convBackward
  rw [if_pos ⟨h1, h2, h3, h4, h5⟩]
  refine ⟨_, rfl, ?_, ?_⟩
  · intro c0 cc u v hc hcc hu hv
    show (convBkLoops nC f s (convWrot nF nC Wv) X dout (wg0, zeroD4)).1 c0 cc u v = _
    rw [convBkLoops_eq]
    show wg0 c0 cc u v + _ = _
    congr 1
    refine Finset.sum_congr rfl fun i _ => ?_
    have hkey : ∀ c h w, convBkW nC f s X dout i c h w c0 cc u v
        = if c0 = c then dout.data i c h w * X.data i cc (h * s + u) (w * s + v)
          else 0 := by
      intro c h w
      unfold convBkW
      by_cases hA : c0 = c <;> simp [hA, hcc, hu, hv]
    calc ∑ c ∈ Finset.range dout.cDim, ∑ h ∈ Finset.range dout.hDim,
            ∑ w ∈ Finset.range dout.wDim, convBkW nC f s X dout i c h w c0 cc u v
        = ∑ c ∈ Finset.range dout.cDim,
            (if c0 = c then
              ∑ h ∈ Finset.range dout.hDim, ∑ w ∈ Finset.range dout.wDim,
                dout.data i c h w * X.data i cc (h * s + u) (w * s + v)
            else 0) := by
          refine Finset.sum_congr rfl fun c _ => ?_
          simp only [hkey]
          exact sum_ite_pull _ _ _ _
      _ = if c0 ∈ Finset.range dout.cDim then
            ∑ h ∈ Finset.range dout.hDim, ∑ w ∈ Finset.range dout.wDim,
              dout.data i c0 h w * X.data i cc (h * s + u) (w * s + v)
          else 0 := Finset.sum_ite_eq _ _ _
      _ = ∑ h ∈ Finset.range dout.hDim, ∑ w ∈ Finset.range dout.wDim,
            dout.data i c0 h w * X.data i cc (h * s + u) (w * s + v) := by
          rw [if_pos (Finset.mem_range.mpr (by rw [h1]; exact hc))]
  · intro c hc
    show (if c < nF then _ else bg0 c) = _
    rw [if_pos hc]

/-- Witness for `conv_backward_grad_spec` on a concrete `1×1×1×1` layer
with input entries 2, upstream gradient entries 3, weight-gradient
accumulator entries 5 and bias-gradient accumulator entries 7. -/
theorem conv_backward_grad_spec_witness :
    ∃ r, convBackward 1 1 1 1 (fun _ _ _ _ => 1)
        ⟨1, 1, 1, 1, fun _ _ _ _ => 2⟩ ⟨1, 1, 1, 1, fun _ _ _ _ => 3⟩
        (fun _ _ _ _ => 5) (fun _ => 7) = some r
      ∧ (∀ c cc u v, c < 1 → cc < 1 → u < 1 → v < 1 →
           r.2.1 c cc u v
             = 5 + ∑ i ∈ Finset.range 1, ∑ h ∈ Finset.range 1,
                 ∑ w ∈ Finset.range 1, (3 : ℚ) * 2)
      ∧ (∀ c < 1, r.2.2 c
           = ∑ i ∈ Finset.range 1, ∑ h ∈ Finset.range 1,
               ∑ w ∈ Finset.range 1, (3 : ℚ)) :=
  conv_backward_grad_spec 1 1 1 1 (fun _ _ _ _ => 1) (fun _ _ _ _ => 5)
    (fun _ => 7) ⟨1, 1, 1, 1, fun _ _ _ _ => 2⟩ ⟨1, 1, 1, 1, fun _ _ _ _ => 3⟩
    rfl (by decide) rfl (by decide) (by decide)

/-- Claim C2 (evaluation at the failing input).  Take one filter, one
channel, `f = 2`, `s = 1`, the weight `W[0,0,0,0] = 1` and all other
entries `0`, a cached `1×1×2×2` input and `dout` the single scalar `1`.
The source's kernel `W_rot = np.rot90(np.rot90(W))` rotates over the
default axes `(0, 1)` — the filter and channel axes — so here it is `W`
itself, with NO spatial rotation: the returned input gradient has `1` at
`(0, 0, 0, 0)` and `0` at `(0, 0, 1, 1)`.  The claimed 180-degree SPATIAL
rotation predicts the opposite corner: `dout * rot180spatial` puts `0` at
`(0, 0, 0, 0)` and `1` at `(0, 0, 1, 1)`. -/
theorem conv_backward_rot90_axes_bug :
    ∃ r, convBackward 1 1 2 1
        (fun _ _ u v => if u = 0 ∧ v = 0 then (1 : ℚ) else 0)
        ⟨1, 1, 2, 2, fun _ _ _ _ => 0⟩ ⟨1, 1, 1, 1, fun _ _ _ _ => 1⟩
        zeroD4 (fun _ => 0) = some r
      ∧ r.1.data 0 0 0 0 = 1 ∧ r.1.data 0 0 1 1 = 0
      ∧ (1 : ℚ) * rot180spatial 2
          (fun _ _ u v => if u = 0 ∧ v = 0 then (1 : ℚ) else 0) 0 0 0 0 = 0
      ∧ (1 : ℚ) * rot180spatial 2
          (fun _ _ u v => if u = 0 ∧ v = 0 then (1 : ℚ) else 0) 0 0 1 1 = 1 := by
  refine ⟨_, rfl, ?_, ?_, ?_, ?_⟩
  · simp [convBkLoops, natFold_one, convBkX, convWrot, rot90ax01, zeroD4]
  · simp [convBkLoops, natFold_one, convBkX, convWrot, rot90ax01, zeroD4]
  · simp [rot180spatial]
  · simp [rot180spatial]

/-- Claim C10, amended.  Conv.backward performs no validation of `dout`
against the shape of the last cached forward output: for ANY `dout` whose
index ranges stay inside the arrays it touches (channel count equal to the
filter count, batch extent at most the cached input's, windows inside the
cached input), it computes and returns a result — loop bounds are simply
read off `dout.shape`. -/
theorem conv_backward_no_validation (nF nC f s : ℕ) (Wv wg0 : D4)
    (bg0 : ℕ → ℚ) (X dout : Tensor4)
    (h1 : dout.cDim = nF) (h2 : dout.mDim ≤ X.mDim) (h3 : X.cDim = nC)
    (h4 : ∀ h < dout.hDim, h * s + f ≤ X.hDim)
    (h5 : ∀ w < dout.wDim, w * s + f ≤ X.wDim) :
    ∃ r, convBackward nF nC f s Wv X dout wg0 bg0 = some r := by
  unfold convBackward
  rw [if_pos ⟨h1, h2, h3, h4, h5⟩]
  exact ⟨_, rfl⟩

/-- Witness for `conv_backward_no_validation` at a concrete input. -/
theorem conv_backward_no_validation_witness :
    ∃ r, convBackward 1 1 1 1 (fun _ _ _ _ => 1)
        ⟨1, 1, 1, 1, fun _ _ _ _ => 1⟩ ⟨1, 1, 1, 1, fun _ _ _ _ => 1⟩
        zeroD4 (fun _ => 0) = some r :=
  conv_backward_no_validation 1 1 1 1 (fun _ _ _ _ => 1) zeroD4 (fun _ => 0)
    ⟨1, 1, 1, 1, fun _ _ _ _ => 1⟩ ⟨1, 1, 1, 1, fun _ _ _ _ => 1⟩
    rfl (by decide) rfl (by decide) (by decide)

/-- Counterexample to claim C10 as stated.  For a cached `1×1×3×3` input
with `f = 2`, `s = 1` the forward output spatial extent is `2`, so a
`1×1×1×1` upstream gradient is inconsistent with the cached forward
output; yet Conv.backward computes and returns a result instead of
failing with an error. -/
theorem conv_backward_accepts_mismatched_dout :
    convOutDim 3 0 2 1 = 2
    ∧ ∃ r, convBackward 1 1 2 1 (fun _ _ _ _ => 1)
        ⟨1, 1, 3, 3, fun _ _ _ _ => 1⟩ ⟨1, 1, 1, 1, fun _ _ _ _ => 1⟩
        zeroD4 (fun _ => 0) = some r := by
  refine ⟨rfl, ?_⟩
  unfold convBackward
  split
  · exact ⟨_, rfl⟩
  · next hg => exact absurd (by decide) hg

/-- Claim C3 (evaluation at the failing input).  For the `1×2×1×1` input
whose channel 0 holds `1` and channel 1 holds `3`, with `f = s = 1`,
AvgPool.forward gives BOTH channels the pooled value `2`: line 134
computes `np.mean` over the whole `(channels, f, f)` slice and assigns the
single scalar to every channel, so the channels do not get the distinct
per-channel spatial means `1` and `3` the claim asserts. -/
theorem avgpool_forward_channel_mix_bug :
    ∃ t, avgpoolForward 1 1 ⟨1, 2, 1, 1, fun _ c _ _ => if c = 0 then 1 else 3⟩
        = some t
      ∧ t.data 0 0 0 0 = 2 ∧ t.data 0 1 0 0 = 2
      ∧ (⟨1, 2, 1, 1, fun _ c _ _ => if c = 0 then 1 else 3⟩ : Tensor4).data
          0 0 0 0 = 1
      ∧ (⟨1, 2, 1, 1, fun _ c _ _ => if c = 0 then 1 else 3⟩ : Tensor4).data
          0 1 0 0 = 3 := by
  refine ⟨_, rfl, ?_, ?_, by norm_num, by norm_num⟩ <;>
    · show (∑ cc ∈ Finset.range 2, ∑ u ∈ Finset.range 1, ∑ v ∈ Finset.range 1,
          (if cc = 0 then (1 : ℚ) else 3)) / ((2 * 1 * 1 : ℕ) : ℚ) = 2
      rw [Finset.sum_range_succ, Finset.sum_range_succ, Finset.sum_range_zero]
      norm_num

/-- Claim C4.  Under the in-bounds conditions, AvgPool.backward returns a
tensor of the cached input's shape whose `(i, c)`-plane entries equal the
corresponding entry of the cached input `X` — the output starts as
`np.copy(X)`, not zeros — plus, for every output position whose window
covers the entry, `dout[i, c, h, w] / (H_out * W_out)` (the spatial
extents of `dout`, NOT `f * f`); consequently an all-zero `dout` returns a
tensor equal to `X` itself. -/
theorem avgpool_backward_spec (f s : ℕ) (X dout : Tensor4)
    (h1 : dout.mDim ≤ X.mDim) (h2 : dout.cDim ≤ X.cDim)
    (h3 : ∀ h < dout.hDim, h * s + f ≤ X.hDim)
    (h4 : ∀ w < dout.wDim, w * s + f ≤ X.wDim) :
    ∃ r, avgpoolBackward f s X dout = some r
      ∧ r.shape = X.shape
      ∧ (∀ i cc, i < dout.mDim → cc < dout.cDim → ∀ u v,
           r.data i cc u v
             = X.data i cc u v
               + ∑ h ∈ Finset.range dout.hDim, ∑ w ∈ Finset.range dout.wDim,
                   (if h * s ≤ u ∧ u < h * s + f ∧ w * s ≤ v ∧ v < w * s + f then
                     dout.data i cc h w / ((dout.hDim * dout.wDim : ℕ) : ℚ)
                   else 0))
      ∧ ((∀ i c h w, dout.data i c h w = 0) →
           avgpoolBackward f s X dout = some X) := by
  have hfold := natFold_add4 (fun i c h w => poolBk f s dout i c h w)
    dout.cDim dout.hDim dout.wDim dout.mDim X.data
  unfold avgpoolBackward
  rw [if_pos ⟨h1, h2, h3, h4⟩]
  refine ⟨_, rfl, rfl, ?_, ?_⟩
  · intro i0 cc hi0 hcc u v
    show natFold _ dout.mDim X.data i0 cc u v = _
    rw [hfold]
    show X.data i0 cc u v + _ = _
    congr 1
    have hkey : ∀ i c h w, poolBk f s dout i c h w i0 cc u v
        = if i0 = i then
            (if cc = c then
              (if h * s ≤ u ∧ u < h * s + f ∧ w * s ≤ v ∧ v < w * s + f then
                dout.data i c h w / ((dout.hDim * dout.wDim : ℕ) : ℚ)
              else 0)
            else 0)
          else 0 := by
      intro i c h w
      unfold poolBk
      by_cases hA : i0 = i <;> by_cases hB : cc = c <;> simp [hA, hB, and_assoc]
    simp only [hkey]
    calc ∑ i ∈ Finset.range dout.mDim, ∑ c ∈ Finset.range dout.cDim,
            ∑ h ∈ Finset.range dout.hDim, ∑ w ∈ Finset.range dout.wDim,
              (if i0 = i then
                (if cc = c then
                  (if h * s ≤ u ∧ u < h * s + f ∧ w * s ≤ v ∧ v < w * s + f then
                    dout.data i c h w / ((dout.hDim * dout.wDim : ℕ) : ℚ)
                  else 0)
                else 0)
              else 0)
        = ∑ i ∈ Finset.range dout.mDim,
            (if i0 = i then
              ∑ c ∈ Finset.range dout.cDim, ∑ h ∈ Finset.range dout.hDim,
                ∑ w ∈ Finset.range dout.wDim,
                  (if cc = c then
                    (if h * s ≤ u ∧ u < h * s + f ∧ w * s ≤ v ∧ v < w * s + f then
                      dout.data i c h w / ((dout.hDim * dout.wDim : ℕ) : ℚ)
                    else 0)
                  else 0)
            else 0) :=
          Finset.sum_congr rfl fun i _ => sum_ite_pull3 _ _ _ _ _
      _ = ∑ c ∈ Finset.range dout.cDim, ∑ h ∈ Finset.range dout.hDim,
            ∑ w ∈ Finset.range dout.wDim,
              (if cc = c then
                (if h * s ≤ u ∧ u < h * s + f ∧ w * s ≤ v ∧ v < w * s + f then
                  dout.data i0 c h w / ((dout.hDim * dout.wDim : ℕ) : ℚ)
                else 0)
              else 0) := by
          rw [Finset.sum_ite_eq, if_pos (Finset.mem_range.mpr hi0)]
      _ = ∑ c ∈ Finset.range dout.cDim,
            (if cc = c then
              ∑ h ∈ Finset.range dout.hDim, ∑ w ∈ Finset.range dout.wDim,
                (if h * s ≤ u ∧ u < h * s + f ∧ w * s ≤ v ∧ v < w * s + f then
                  dout.data i0 c h w / ((dout.hDim * dout.wDim : ℕ) : ℚ)
                else 0)
            else 0) :=
          Finset.sum_congr rfl fun c _ => sum_ite_pull _ _ _ _
      _ = ∑ h ∈ Finset.range dout.hDim, ∑ w ∈ Finset.range dout.wDim,
            (if h * s ≤ u ∧ u < h * s + f ∧ w * s ≤ v ∧ v < w * s + f then
              dout.data i0 cc h w / ((dout.hDim * dout.wDim : ℕ) : ℚ)
            else 0) := by
          rw [Finset.sum_ite_eq, if_pos (Finset.mem_range.mpr hcc)]
  · intro hz
    have hdata : natFold (fun i a1 =>
        natFold (fun c a2 =>
          natFold (fun h a3 =>
            natFold (fun w a4 =>
              fun a b u v => a4 a b u v + poolBk f s dout i c h w a b u v)
              dout.wDim a3)
            dout.hDim a2)
          dout.cDim a1)
        dout.mDim X.data = X.data := by
      rw [hfold]
      funext a b u v
      simp [poolBk, hz]
    rw [hdata]

/-- Witness for `avgpool_backward_spec` on a concrete `1×1×1×1` input with
entries 4 and upstream gradient entries 0. -/
theorem avgpool_backward_spec_witness :
    ∃ r, avgpoolBackward 1 1 ⟨1, 1, 1, 1, fun _ _ _ _ => 4⟩
        ⟨1, 1, 1, 1, fun _ _ _ _ => 0⟩ = some r
      ∧ r.shape = (1, 1, 1, 1)
      ∧ (∀ i cc, i < 1 → cc < 1 → ∀ u v,
           r.data i cc u v
             = 4 + ∑ h ∈ Finset.range 1, ∑ w ∈ Finset.range 1,
                 (if h * 1 ≤ u ∧ u < h * 1 + 1 ∧ w * 1 ≤ v ∧ v < w * 1 + 1 then
                   (0 : ℚ) / ((1 * 1 : ℕ) : ℚ) else 0))
      ∧ ((∀ i c h w, (⟨1, 1, 1, 1, fun _ _ _ _ => 0⟩ : Tensor4).data i c h w = 0) →
           avgpoolBackward 1 1 ⟨1, 1, 1, 1, fun _ _ _ _ => 4⟩
             ⟨1, 1, 1, 1, fun _ _ _ _ => 0⟩
             = some ⟨1, 1, 1, 1, fun _ _ _ _ => 4⟩) :=
  avgpool_backward_spec 1 1 ⟨1, 1, 1, 1, fun _ _ _ _ => 4⟩
    ⟨1, 1, 1, 1, fun _ _ _ _ => 0⟩ (by decide) (by decide) (by decide) (by decide)

/-- Claim C6.  For a cached input `x` of shape `[c, mb]` and an upstream
gradient `deltaL` of shape `[r, mb]`, Fc.backward takes `m = x.shape[0]`
(the FIRST axis of the cached input, so `m = c` here), sets the weight
gradient to `(1/m) * deltaL . x^T`, sets the bias gradient to `(1/m)`
times `np.sum(deltaL, axis=0)` — the sum along the axis the file's
convention calls the batch axis — and returns `W^T . deltaL` as the
layer-input gradient, with no activation derivative applied. -/
theorem fc_backward_spec (l : Fc) (x dL : NDT) (r c mb : ℕ)
    (hcache : l.cache = some x) (hx : x.shape = [c, mb])
    (hd : dL.shape = [r, mb]) (hW : l.wPar.val.shape = [r, c]) (hc : 0 < c) :
    ∃ res, fcBackward l dL = some res
      ∧ res.2.2.1.shape = [r, c]
      ∧ (∀ i j, res.2.2.1.data [i, j]
           = 1 / (c : ℚ) * ∑ k ∈ Finset.range mb, dL.data [i, k] * x.data [j, k])
      ∧ res.2.2.2.shape = [mb]
      ∧ (∀ j, res.2.2.2.data [j]
           = 1 / (c : ℚ) * ∑ i ∈ Finset.range r, dL.data [i, j])
      ∧ res.2.1.shape = [c, mb]
      ∧ (∀ i j, res.2.1.data [i, j]
           = ∑ k ∈ Finset.range r, l.wPar.val.data [k, i] * dL.data [k, j]) := by
  obtain ⟨row, col, wp, bp, cache⟩ := l
  simp only at hcache hW
  subst hcache
  refine ⟨_, rfl, ?_, ?_, ?_, ?_, ?_, ?_⟩
  · simp [scaleNDT, matMul2, transp2, hx, hd]
  · intro i j
    simp [scaleNDT, matMul2, transp2, hx, hd]
  · simp [scaleNDT, sumAxis0, hd]
  · intro j
    simp [scaleNDT, sumAxis0, hx, hd]
  · simp [matMul2, transp2, hW, hd]
  · intro i j
    simp [matMul2, transp2, hW, hd]

/-- Witness for `fc_backward_spec` on a concrete `1×1` layer with weight
entry 2, cached input entries 3 and upstream gradient entries 5. -/
theorem fc_backward_spec_witness :
    ∃ res, fcBackward
        ⟨1, 1, ⟨⟨[1, 1], fun _ => 2⟩, PyVal.num 0⟩,
         ⟨⟨[1, 1], fun _ => 0⟩, PyVal.num 0⟩, some ⟨[1, 1], fun _ => 3⟩⟩
        ⟨[1, 1], fun _ => 5⟩ = some res
      ∧ res.2.2.1.shape = [1, 1]
      ∧ (∀ i j, res.2.2.1.data [i, j]
           = 1 / (1 : ℚ) * ∑ k ∈ Finset.range 1, (5 : ℚ) * 3)
      ∧ res.2.2.2.shape = [1]
      ∧ (∀ j, res.2.2.2.data [j] = 1 / (1 : ℚ) * ∑ i ∈ Finset.range 1, (5 : ℚ))
      ∧ res.2.1.shape = [1, 1]
      ∧ (∀ i j, res.2.1.data [i, j] = ∑ k ∈ Finset.range 1, (2 : ℚ) * 5) :=
  fc_backward_spec
    ⟨1, 1, ⟨⟨[1, 1], fun _ => 2⟩, PyVal.num 0⟩,
     ⟨⟨[1, 1], fun _ => 0⟩, PyVal.num 0⟩, some ⟨[1, 1], fun _ => 3⟩⟩
    ⟨[1, 1], fun _ => 3⟩ ⟨[1, 1], fun _ => 5⟩ 1 1 1
    rfl rfl rfl rfl (by decide)

/-- Claim C9 (evaluation at the failing input).  The invariant "parameter
value and gradient always share the same shape" fails for Fc: at
construction both `grad` slots hold the Python scalar `0`, not tensors of
the value's shape; and after a backward call with a cached `[3, 1]` input
and a `[2, 1]` upstream gradient, the bias gradient is a rank-1 tensor of
shape `[1]` (from `np.sum(deltaL, axis=0)`) while the bias value has shape
`[2, 1]`.  (Conv's constructor, by contrast, does give value and gradient
equal shapes — `convInitShapes`.) -/
theorem fc_param_shape_bug :
    (fcInit 2 3 (fun _ => 0) (fun _ => 0)).wPar.val.shape = [2, 3]
    ∧ (fcInit 2 3 (fun _ => 0) (fun _ => 0)).wPar.grad = PyVal.num 0
    ∧ (fcInit 2 3 (fun _ => 0) (fun _ => 0)).bPar.val.shape = [2, 1]
    ∧ (fcInit 2 3 (fun _ => 0) (fun _ => 0)).bPar.grad = PyVal.num 0
    ∧ (convInitShapes 4 2 5).1.1 = (convInitShapes 4 2 5).1.2
    ∧ (convInitShapes 4 2 5).2.1 = (convInitShapes 4 2 5).2.2
    ∧ (∃ res, fcBackward
          ⟨2, 3, ⟨⟨[2, 3], fun _ => 0⟩, PyVal.num 0⟩,
           ⟨⟨[2, 1], fun _ => 0⟩, PyVal.num 0⟩, some ⟨[3, 1], fun _ => 1⟩⟩
          ⟨[2, 1], fun _ => 1⟩ = some res
        ∧ res.1.bPar.val.shape = [2, 1]
        ∧ (∃ g, res.1.bPar.grad = PyVal.arr g ∧ g.shape = [1])) :=
  ⟨rfl, rfl, rfl, rfl, rfl, rfl, ⟨_, rfl, rfl, ⟨_, rfl, rfl⟩⟩⟩

/-- Claim C7.  For every gradient mapping on the ten tracked names
`(d)W1..W5, (d)b1..b5` and every optimizer state, `update_params` sets,
elementwise and for each name: first moment
`beta1 * v + (1 - beta1) * grad`, second moment
`beta2 * s + (1 - beta2) * grad^2` — neither with any bias correction —
and parameter `p - lr * v_new / (sqrtF(s_new) + epsilon)`; and the
returned collection is the parameter collection held by the (mutated-in-
place) optimizer after the update. -/
theorem adam_update_spec {ι : Type} (sqrtF : ℚ → ℚ) (o : AdamGD ι)
    (g : PName → ι → ℚ) :
    (adamUpdate sqrtF o g).2 = (adamUpdate sqrtF o g).1.params
    ∧ ∀ n k,
        (adamUpdate sqrtF o g).1.vMom n k
            = o.beta1 * o.vMom n k + (1 - o.beta1) * g n k
        ∧ (adamUpdate sqrtF o g).1.sMom n k
            = o.beta2 * o.sMom n k + (1 - o.beta2) * g n k ^ 2
        ∧ (adamUpdate sqrtF o g).1.params n k
            = o.params n k
              - o.lr * (o.beta1 * o.vMom n k + (1 - o.beta1) * g n k)
                / (sqrtF (o.beta2 * o.sMom n k + (1 - o.beta2) * g n k ^ 2)
                    + o.epsilon) :=
  ⟨rfl, fun _ _ => ⟨rfl, rfl, rfl⟩⟩

/-- Claim C8.  TanH.forward returns `alpha * tanh(X)` elementwise — with
default `alpha = 1.7159` — and caches `X`; TanH.backward then returns
`grad * (1 - tanh(X)^2)`, the derivative of the PLAIN tanh: the result of
forward-then-backward does not depend on `alpha` at all, so the gradient
is never multiplied by it. -/
theorem tanh_layer_spec {ι : Type} (tanhF : ℚ → ℚ) (al : ℚ) (X g : ι → ℚ) :
    ({} : TanH ι).alpha = 1.7159
    ∧ ({} : TanH ι).cache = none
    ∧ (tanhForward tanhF ⟨al, none⟩ X).2 = (fun k => al * tanhF (X k))
    ∧ (tanhForward tanhF ⟨al, none⟩ X).1.cache = some X
    ∧ tanhBackward tanhF (tanhForward tanhF ⟨al, none⟩ X).1 g
        = some (fun k => g k * (1 - tanhF (X k) ^ 2))
    ∧ ∀ al2 : ℚ, tanhBackward tanhF (tanhForward tanhF ⟨al2, none⟩ X).1 g
        = tanhBackward tanhF (tanhForward tanhF ⟨al, none⟩ X).1 g :=
  ⟨rfl, rfl, rfl, rfl, rfl, fun _ => rfl⟩

end CNNumpy
